import Mathlib

/-!
# Verification of the student reconciliation scripts

A shallow embedding of `scripts/python/reconciliation/fuzzy_match_students.py`
and `scripts/python/reconciliation/survivorship_merge_students.py`, together
with proofs of the specified properties of the two scripts.

Rows are modelled as ordered association lists from column name to cell string
(Python `dict` rows produced by `csv.DictReader`); Python floats are modelled
as rationals (only order comparisons and one addition are performed on them);
Python sets of strings are modelled as lists with membership-guarded insertion.
-/

namespace Scripting

/-! ## String normalization helpers (`normalize`, `normalize_name`, `join_name`) -/

/-- Drop leading and trailing whitespace characters from a character list
(the character-level content of Python `str.strip()`). -/
def pyStripList (l : List Char) : List Char :=
  ((l.dropWhile Char.isWhitespace).reverse.dropWhile Char.isWhitespace).reverse

/-- Python `str.strip()`. -/
def pyStrip (s : String) : String := ⟨pyStripList s.data⟩

/-- `normalize(value)` of both scripts, applied to a string: `str(value).strip()`. -/
def normalizeStr (s : String) : String := pyStrip s

/-- `normalize(value)` of both scripts, applied to the result of a `row.get(col)`
(Python `None` becomes `""`). -/
def normalize (v : Option String) : String := normalizeStr (v.getD "")

/-- Python `str.lower()` (character-wise `Char.toLower`). -/
def pyToLower (s : String) : String := ⟨s.data.map Char.toLower⟩

/-- Python `str.split()` with no separator: split on whitespace runs, dropping
empty pieces.  `cur` carries the characters of the current word, reversed. -/
def pyWordsGo : List Char → List Char → List String
  | [], cur => if cur = [] then [] else [String.mk cur.reverse]
  | c :: rest, cur =>
    if Char.isWhitespace c then
      if cur = [] then pyWordsGo rest []
      else String.mk cur.reverse :: pyWordsGo rest []
    else pyWordsGo rest (c :: cur)

/-- Python `str.split()` with no separator. -/
def pyWords (s : String) : List String := pyWordsGo s.data []

/-- A parsed CSV row: an ordered mapping from column name to cell string. -/
abbrev Row := List (String × String)

/-- `row.get(col)` on a Python dict row. -/
def Row.get (r : Row) (c : String) : Option String :=
  (List.find? (fun p => p.1 == c) r).map (fun p => p.2)

/-- `normalize_name(value)`: trim, lowercase, and collapse internal whitespace
(`" ".join(normalize(value).lower().split())`). -/
def normalize_name (value : String) : String :=
  " ".intercalate (pyWords (pyToLower (normalizeStr value)))

/-- `join_name(row, columns)`: join the non-empty normalized name cells with
single spaces. -/
def join_name (row : Row) (columns : List String) : String :=
  " ".intercalate ((columns.map (fun col => normalize (row.get col))).filter
    (fun t => t != ""))

/-! ## Matcher data model (`fuzzy_match_students.py`) -/

/-- The `TargetCandidate` dataclass. -/
structure TargetCandidate where
  key : String
  row : Row
  name_key : String
  department : String
deriving DecidableEq, Repr

/-- The candidate built for one target row inside `build_target_candidates`. -/
def mkCandidate (row : Row) (key : String) (name_columns : List String)
    (department_column : String) : TargetCandidate :=
  { key := key
    row := row
    name_key := normalize_name (join_name row name_columns)
    department :=
      if department_column ≠ "" then pyToLower (normalize (row.get department_column))
      else "" }

/-- The state built up by `build_target_candidates`: key index, candidate pool,
and the two counters returned in its stats dict. -/
structure TargetIndex where
  by_key : List (String × TargetCandidate)
  all_candidates : List TargetCandidate
  duplicate_keys : Nat
  missing_key_rows : Nat
deriving DecidableEq, Repr

/-- The stats dict literal returned by `build_target_candidates` and spread
(`**target_stats`) verbatim into the JSON run summary. -/
def TargetIndex.stats (t : TargetIndex) : List (String × Nat) :=
  [("target_duplicate_keys_ignored", t.duplicate_keys),
   ("target_missing_key_rows", t.missing_key_rows)]

/-- The row loop of `build_target_candidates`. -/
def buildTargetsGo (key_column : String) (name_columns : List String)
    (department_column : String) : List Row → TargetIndex → TargetIndex
  | [], acc => acc
  | row :: rest, acc =>
    let key := normalize (row.get key_column)
    if key = "" then
      buildTargetsGo key_column name_columns department_column rest
        { acc with missing_key_rows := acc.missing_key_rows + 1 }
    else if acc.by_key.any (fun p => p.1 == key) then
      buildTargetsGo key_column name_columns department_column rest
        { acc with duplicate_keys := acc.duplicate_keys + 1 }
    else
      let candidate := mkCandidate row key name_columns department_column
      buildTargetsGo key_column name_columns department_column rest
        { acc with by_key := acc.by_key ++ [(key, candidate)],
                   all_candidates := acc.all_candidates ++ [candidate] }

/-- `build_target_candidates(rows, key_column, name_columns, department_column)`. -/
def build_target_candidates (rows : List Row) (key_column : String)
    (name_columns : List String) (department_column : String) : TargetIndex :=
  buildTargetsGo key_column name_columns department_column rows ⟨[], [], 0, 0⟩

/-- `similarity(left, right)`.  `SequenceMatcher(None, left, right).ratio()` is
Python standard-library code, not part of this repository; per the spec it is
"a string similarity score in [0,1] between NameKeys", so it is passed in here
as an explicit function `ratio`. -/
def similarity (ratio : String → String → Rat) (left right : String) : Rat :=
  if left = "" ∨ right = "" then 0 else ratio left right

/-- The per-candidate score computed inside the candidate loop of
`choose_fuzzy_candidate`: name similarity plus the capped department bonus. -/
def candScore (ratio : String → String → Rat) (source_name source_department : String)
    (c : TargetCandidate) : Rat :=
  let score := similarity ratio source_name c.name_key
  if source_department ≠ "" ∧ c.department ≠ "" ∧ source_department = c.department then
    min 1 (score + 6/100)
  else score

/-- The best-candidate scan loop of `choose_fuzzy_candidate`: skip consumed
candidates and keep the first candidate attaining the strictly highest score. -/
def scanCandidates (ratio : String → String → Rat)
    (source_name source_department : String) (consumed : List String) :
    List TargetCandidate → Option TargetCandidate → Rat →
      Option TargetCandidate × Rat
  | [], best, best_score => (best, best_score)
  | c :: rest, best, best_score =>
    if c.key ∈ consumed then
      scanCandidates ratio source_name source_department consumed rest best best_score
    else
      let score := candScore ratio source_name source_department c
      if best_score < score then
        scanCandidates ratio source_name source_department consumed rest (some c) score
      else
        scanCandidates ratio source_name source_department consumed rest best best_score

/-- A single quote character (used in the reason strings of the script). -/
def sq : String := String.mk [Char.ofNat 39]

/-- Derived source name (`normalize_name(join_name(source_row, name_columns))`). -/
def sourceNameOf (source_row : Row) (name_columns : List String) : String :=
  normalize_name (join_name source_row name_columns)

/-- Derived source department
(`normalize(source_row.get(department_column)).lower() if department_column else ""`). -/
def sourceDeptOf (source_row : Row) (department_column : String) : String :=
  if department_column ≠ "" then pyToLower (normalize (source_row.get department_column))
  else ""

/-- Result triple of `choose_fuzzy_candidate`. -/
structure FuzzyChoice where
  candidate : Option TargetCandidate
  score : Rat
  reason : String
deriving Repr

/-- `choose_fuzzy_candidate(...)`.  `fmt3` and `fmt2` stand for Python's
`"%.3f"` / `"%.2f"` float formatting (presentational, passed in explicitly). -/
def choose_fuzzy_candidate (ratio : String → String → Rat) (fmt3 fmt2 : Rat → String)
    (source_row : Row) (source_key : String) (candidates : List TargetCandidate)
    (consumed_target_keys : List String) (name_columns : List String)
    (department_column : String) (threshold : Rat) : FuzzyChoice :=
  let source_name := sourceNameOf source_row name_columns
  let source_department := sourceDeptOf source_row department_column
  if source_name = "" then
    let reason0 := "No usable source name fields for fuzzy match"
    let reason :=
      if source_key ≠ "" then
        "Source key " ++ sq ++ source_key ++ sq ++ " not present in target and "
          ++ reason0.toLower
      else reason0
    ⟨none, 0, reason⟩
  else
    let scanned := scanCandidates ratio source_name source_department
      consumed_target_keys candidates none 0
    let best_score := scanned.2
    let noMatch : FuzzyChoice :=
      let reason0 := "Best candidate score " ++ fmt3 best_score
        ++ " below threshold " ++ fmt2 threshold
      let reason :=
        if source_key ≠ "" then
          "Source key " ++ sq ++ source_key ++ sq ++ " not present in target and "
            ++ reason0.toLower
        else reason0
      ⟨none, best_score, reason⟩
    match scanned.1 with
    | some c => if threshold ≤ best_score then ⟨some c, best_score, "Name similarity match"⟩
                else noMatch
    | none => noMatch

/-- One output row of the matcher (the CSV row written by `main`). -/
structure MatchRow where
  source_record_key : String
  source_name : String
  source_department : String
  target_record_key : String
  target_name : String
  target_department : String
  match_type : String
  match_score : String
  reason : String
deriving DecidableEq, Repr

/-- The `counts` dict of the matcher `main`. -/
structure MatchCounts where
  exact_key : Nat
  fuzzy_name : Nat
  no_match : Nat
deriving DecidableEq, Repr

/-- Mutable state of the matcher loop: the consumed-target-key set and counts. -/
structure MatchState where
  consumed : List String
  counts : MatchCounts
deriving DecidableEq, Repr

/-- The fuzzy / no-match half of one iteration of the matcher `main` loop. -/
def matcherFuzzy (ratio : String → String → Rat) (fmt3 fmt2 : Rat → String)
    (name_columns : List String) (department_column : String) (threshold : Rat)
    (pool : List TargetCandidate) (st : MatchState) (source_row : Row)
    (source_key source_name source_department : String) : MatchState × MatchRow :=
  let fc := choose_fuzzy_candidate ratio fmt3 fmt2 source_row source_key pool
    st.consumed name_columns department_column threshold
  match fc.candidate with
  | some candidate =>
    ({ consumed := st.consumed.insert candidate.key,
       counts := { st.counts with fuzzy_name := st.counts.fuzzy_name + 1 } },
     { source_record_key := source_key
       source_name := source_name
       source_department := source_department
       target_record_key := candidate.key
       target_name := join_name candidate.row name_columns
       target_department :=
         if department_column ≠ "" then normalize (candidate.row.get department_column)
         else ""
       match_type := "fuzzy_name"
       match_score := fmt3 fc.score
       reason := fc.reason })
  | none =>
    ({ st with counts := { st.counts with no_match := st.counts.no_match + 1 } },
     { source_record_key := source_key
       source_name := source_name
       source_department := source_department
       target_record_key := ""
       target_name := ""
       target_department := ""
       match_type := "no_match"
       match_score := fmt3 fc.score
       reason := fc.reason })

/-- One iteration of the matcher `main` loop: exact-key match first (only when
the key is non-empty, indexed, and not yet consumed), else the fuzzy path. -/
def matcherStep (ratio : String → String → Rat) (fmt3 fmt2 : Rat → String)
    (key : String) (name_columns : List String) (department_column : String)
    (threshold : Rat) (tindex : List (String × TargetCandidate))
    (pool : List TargetCandidate) (st : MatchState) (source_row : Row) :
    MatchState × MatchRow :=
  let source_key := normalize (source_row.get key)
  let source_name := join_name source_row name_columns
  let source_department :=
    if department_column ≠ "" then normalize (source_row.get department_column) else ""
  match List.lookup source_key tindex with
  | some candidate =>
    if source_key ≠ "" ∧ source_key ∉ st.consumed then
      ({ consumed := st.consumed.insert candidate.key,
         counts := { st.counts with exact_key := st.counts.exact_key + 1 } },
       { source_record_key := source_key
         source_name := source_name
         source_department := source_department
         target_record_key := candidate.key
         target_name := join_name candidate.row name_columns
         target_department :=
           if department_column ≠ "" then normalize (candidate.row.get department_column)
           else ""
         match_type := "exact_key"
         match_score := "1.000"
         reason := "Key match" })
    else
      matcherFuzzy ratio fmt3 fmt2 name_columns department_column threshold pool st
        source_row source_key source_name source_department
  | none =>
    matcherFuzzy ratio fmt3 fmt2 name_columns department_column threshold pool st
      source_row source_key source_name source_department

/-- The matcher `main` loop over the source rows, emitting one row per record. -/
def matcherLoop (ratio : String → String → Rat) (fmt3 fmt2 : Rat → String)
    (key : String) (name_columns : List String) (department_column : String)
    (threshold : Rat) (tindex : List (String × TargetCandidate))
    (pool : List TargetCandidate) : List Row → MatchState → List MatchRow × MatchState
  | [], st => ([], st)
  | row :: rest, st =>
    let step := matcherStep ratio fmt3 fmt2 key name_columns department_column
      threshold tindex pool st row
    let next := matcherLoop ratio fmt3 fmt2 key name_columns department_column
      threshold tindex pool rest step.1
    (step.2 :: next.1, next.2)

/-- The matcher `main` on already-parsed rows: build the target index, then run
the matching loop with an initially empty consumed set. -/
def matcherRun (ratio : String → String → Rat) (fmt3 fmt2 : Rat → String)
    (source_rows target_rows : List Row) (key : String) (name_columns : List String)
    (department_column_arg : String) (threshold : Rat) :
    List MatchRow × MatchState × TargetIndex :=
  let department_column := normalizeStr department_column_arg
  let tindex := build_target_candidates target_rows key name_columns department_column
  let looped := matcherLoop ratio fmt3 fmt2 key name_columns department_column
    threshold tindex.by_key tindex.all_candidates source_rows ⟨[], ⟨0, 0, 0⟩⟩
  (looped.1, looped.2, tindex)

/-- The non-empty matched target keys of a list of matcher output rows. -/
def matchedTargets (rows : List MatchRow) : List String :=
  (rows.map (fun r => r.target_record_key)).filter (fun k => k != "")

/-! ## Survivorship merger data model (`survivorship_merge_students.py`) -/

/-- The row loop of `index_rows`: key index (first occurrence wins), duplicate
counter, missing-key counter. -/
def indexRowsGo (key_column : String) :
    List Row → List (String × Row) × Nat × Nat → List (String × Row) × Nat × Nat
  | [], acc => acc
  | row :: rest, acc =>
    let record_key := normalize (row.get key_column)
    if record_key = "" then
      indexRowsGo key_column rest (acc.1, acc.2.1, acc.2.2 + 1)
    else if acc.1.any (fun p => p.1 == record_key) then
      indexRowsGo key_column rest (acc.1, acc.2.1 + 1, acc.2.2)
    else
      indexRowsGo key_column rest (acc.1 ++ [(record_key, row)], acc.2.1, acc.2.2)

/-- `index_rows(rows, key_column)`. -/
def index_rows (rows : List Row) (key_column : String) :
    List (String × Row) × Nat × Nat :=
  indexRowsGo key_column rows ([], 0, 0)

/-- `resolve_columns(source_rows, target_rows, key_column, requested_columns)`:
the explicit column list without the key column, or the first-seen union of the
two header rows without the key column. -/
def resolve_columns (source_rows target_rows : List Row) (key_column : String)
    (requested_columns : List String) : List String :=
  if requested_columns ≠ [] then
    requested_columns.filter (fun col => col != key_column)
  else
    let source_columns : List String :=
      match source_rows with | [] => [] | r :: _ => r.map (fun p => p.1)
    let target_columns : List String :=
      match target_rows with | [] => [] | r :: _ => r.map (fun p => p.1)
    (source_columns ++ target_columns).foldl
      (fun acc col => if col = key_column ∨ col ∈ acc then acc else acc ++ [col]) []

/-- `choose_value(source_value, target_value, priority)`:
`(chosen_value, chosen_from, is_conflict)`. -/
def choose_value (source_value target_value : String) (priority : List String) :
    String × String × Bool :=
  let source_value := normalizeStr source_value
  let target_value := normalizeStr target_value
  if source_value ≠ "" ∧ target_value ≠ "" ∧ source_value = target_value then
    (source_value, "both", false)
  else if source_value ≠ "" ∧ target_value ≠ "" ∧ source_value ≠ target_value then
    let preferred := priority.headD ""
    if preferred = "source" then (source_value, "source", true)
    else (target_value, "target", true)
  else if source_value ≠ "" then (source_value, "source", false)
  else if target_value ≠ "" then (target_value, "target", false)
  else ("", "none", false)

/-- First-occurrence deduplication starting from an already-collected prefix:
`for x in l: if x not in acc: acc.append(x)` (the pattern used both by
`validate_priority` and by Python set-union modelling). -/
def dedupFirstAux : List String → List String → List String
  | acc, [] => acc
  | acc, x :: xs =>
    if x ∈ acc then dedupFirstAux acc xs else dedupFirstAux (acc ++ [x]) xs

/-- First-occurrence deduplication of a list of strings. -/
def dedupFirst (l : List String) : List String := dedupFirstAux [] l

/-- The cleaned priority tokens of `validate_priority`:
`[normalize(item).lower() for item in priority if normalize(item)]`. -/
def cleanedOf (priority : List String) : List String :=
  (priority.filter (fun item => normalizeStr item != "")).map
    (fun item => pyToLower (normalizeStr item))

/-- The invalid tokens among the cleaned priority tokens. -/
def invalidOf (priority : List String) : List String :=
  (cleanedOf priority).filter (fun item => !(item == "source" || item == "target"))

/-- `validate_priority(priority)`: default on an all-blank list, reject unknown
tokens with a message naming them, else dedup keeping first occurrences and
append missing fallbacks (`"target"` then `"source"`). -/
def validate_priority (priority : List String) : Except String (List String) :=
  let cleaned := cleanedOf priority
  if cleaned = [] then .ok ["target", "source"]
  else
    let invalid := invalidOf priority
    if invalid ≠ [] then
      .error ("Invalid priority option(s): " ++ ", ".intercalate invalid)
    else
      let ordered := dedupFirstAux [] cleaned
      .ok (dedupFirstAux ordered ["target", "source"])

/-- One merged output row: key, record origin, and per-column
(column, chosen value, provenance) triples. -/
structure MergedRecord where
  key : String
  record_origin : String
  fields : List (String × String × String)
deriving DecidableEq, Repr

/-- One row of the conflict side artifact. -/
structure ConflictRow where
  record_key : String
  column : String
  source_value : String
  target_value : String
  chosen_value : String
  chosen_from : String
  priority : String
deriving DecidableEq, Repr

/-- The `counts` dict of the merger `main`. -/
structure MergeCounts where
  both_sources : Nat
  source_only : Nat
  target_only : Nat
  field_conflicts : Nat
deriving DecidableEq, Repr

/-- `normalize(row.get(column)) if row else ""`: the cell value the merger
feeds into `choose_value`. -/
def getCell (maybe_row : Option Row) (column : String) : String :=
  match maybe_row with
  | some row => normalize (row.get column)
  | none => ""

/-- The per-column loop of the merger `main`: resolved field triples, conflict
rows, and the number of conflicts for one record. -/
def mergeColumnsLoop (source_row target_row : Option Row) (priority : List String)
    (record_key : String) :
    List String → List (String × String × String) × List ConflictRow × Nat
  | [] => ([], [], 0)
  | column :: rest =>
    let source_value := getCell source_row column
    let target_value := getCell target_row column
    let chosen := choose_value source_value target_value priority
    let next := mergeColumnsLoop source_row target_row priority record_key rest
    if chosen.2.2 then
      ((column, chosen.1, chosen.2.1) :: next.1,
       { record_key := record_key
         column := column
         source_value := source_value
         target_value := target_value
         chosen_value := chosen.1
         chosen_from := chosen.2.1
         priority := ">".intercalate priority } :: next.2.1,
       next.2.2 + 1)
    else ((column, chosen.1, chosen.2.1) :: next.1, next.2.1, next.2.2)

/-- The body of the merger `main` loop for one key of the sorted key union. -/
def processKey (source_idx target_idx : List (String × Row))
    (merge_columns priority : List String) (record_key : String) :
    MergedRecord × List ConflictRow × Nat :=
  let source_row := List.lookup record_key source_idx
  let target_row := List.lookup record_key target_idx
  let record_origin :=
    if source_row.isSome ∧ target_row.isSome then "both"
    else if source_row.isSome then "source_only"
    else "target_only"
  let cols := mergeColumnsLoop source_row target_row priority record_key merge_columns
  ({ key := record_key, record_origin := record_origin, fields := cols.1 },
   cols.2.1, cols.2.2)

/-- The merger `main` loop over the sorted union of keys. -/
def mergeLoop (source_idx target_idx : List (String × Row))
    (merge_columns priority : List String) :
    List String → List MergedRecord × List ConflictRow × MergeCounts
  | [] => ([], [], ⟨0, 0, 0, 0⟩)
  | k :: rest =>
    let p := processKey source_idx target_idx merge_columns priority k
    let next := mergeLoop source_idx target_idx merge_columns priority rest
    let origin := p.1.record_origin
    (p.1 :: next.1, p.2.1 ++ next.2.1,
     { both_sources := (if origin = "both" then 1 else 0) + next.2.2.both_sources
       source_only := (if origin = "source_only" then 1 else 0) + next.2.2.source_only
       target_only := (if origin = "target_only" then 1 else 0) + next.2.2.target_only
       field_conflicts := p.2.2 + next.2.2.field_conflicts })

/-- Result of the merger's pure core: merged rows, conflict rows, counts. -/
structure MergeOut where
  merged_rows : List MergedRecord
  conflict_rows : List ConflictRow
  counts : MergeCounts
deriving DecidableEq, Repr

/-- `sorted(set(source_idx) | set(target_idx))`: the sorted deduplicated union
of the keys of the two indices. -/
def allKeysOf (source_idx target_idx : List (String × Row)) : List String :=
  (dedupFirst (source_idx.map (fun p => p.1) ++ target_idx.map (fun p => p.1))).mergeSort
    (fun a b => decide (a ≤ b))

/-- The merger `main` after priority validation, on already-parsed rows. -/
def mergeCore (source_rows target_rows : List Row) (key_column : String)
    (requested_columns priority : List String) : MergeOut :=
  let source_idx := (index_rows source_rows key_column).1
  let target_idx := (index_rows target_rows key_column).1
  let merge_columns := resolve_columns source_rows target_rows key_column requested_columns
  let all_keys := allKeysOf source_idx target_idx
  let looped := mergeLoop source_idx target_idx merge_columns priority all_keys
  ⟨looped.1, looped.2.1, looped.2.2⟩

/-- The merger `main` on already-parsed rows: `validate_priority` runs first,
and a validation error aborts the run before the rows are even consulted. -/
def mergeRun (priority_arg : List String) (source_rows target_rows : List Row)
    (key_column : String) (requested_columns : List String) : Except String MergeOut :=
  match validate_priority priority_arg with
  | .error e => .error e
  | .ok priority => .ok (mergeCore source_rows target_rows key_column requested_columns priority)

/-- Spec-side (C2): "both sides had differing non-empty values" at one
(key, column) cell pair. -/
def conflictCellB (source_row target_row : Option Row) (column : String) : Bool :=
  let sv := getCell source_row column
  let tv := getCell target_row column
  sv != "" && tv != "" && sv != tv

/-- Modelled from the spec: `difflib.SequenceMatcher(...).ratio()` is Python
standard-library code outside this repository; the spec requires only "a string
similarity score in [0,1] between NameKeys".  This concrete instance (score 1
for identical strings, 0 otherwise) instantiates witnesses. -/
def ratioEq (left right : String) : Rat := if left = right then 1 else 0

/-- Modelled from the spec: a stand-in for Python float formatting ("match
score (3 decimals)" is presentational); used only to instantiate witnesses. -/
def fmtNull (_ : Rat) : String := ""

/-! ## Lemmas: normalization -/

lemma dropWhile_head?_false {α : Type} {p : α → Bool} {l : List α} {a : α}
    (h : (l.dropWhile p).head? = some a) : p a = false := by
  have h2 := List.head?_dropWhile_not p l
  rw [h] at h2
  exact h2

lemma dropWhile_of_head?_false {α : Type} {p : α → Bool} {l : List α}
    (h : ∀ a, l.head? = some a → p a = false) : l.dropWhile p = l := by
  cases l with
  | nil => rfl
  | cons x xs =>
    have hx := h x rfl
    rw [List.dropWhile_cons_of_neg]
    simp [hx]

lemma pyStripList_getLast?_false {l : List Char} {a : Char}
    (h : (pyStripList l).getLast? = some a) : a.isWhitespace = false := by
  unfold pyStripList at h
  rw [List.getLast?_reverse] at h
  exact dropWhile_head?_false h

lemma pyStripList_head?_false {l : List Char} {a : Char}
    (h : (pyStripList l).head? = some a) : a.isWhitespace = false := by
  unfold pyStripList at h
  rw [List.head?_reverse] at h
  obtain ⟨t, ht⟩ :=
    @List.dropWhile_suffix Char ((l.dropWhile Char.isWhitespace).reverse) Char.isWhitespace
  have hAr : (l.dropWhile Char.isWhitespace).reverse.getLast? = some a := by
    rw [← ht, List.getLast?_append, h]
    rfl
  rw [List.getLast?_reverse] at hAr
  exact dropWhile_head?_false hAr

lemma pyStripList_idem (l : List Char) : pyStripList (pyStripList l) = pyStripList l := by
  conv_lhs => rw [pyStripList]
  have h1 : (pyStripList l).dropWhile Char.isWhitespace = pyStripList l :=
    dropWhile_of_head?_false (fun a ha => pyStripList_head?_false ha)
  rw [h1]
  have h2 : (pyStripList l).reverse.dropWhile Char.isWhitespace = (pyStripList l).reverse :=
    dropWhile_of_head?_false (fun a ha => by
      rw [List.head?_reverse] at ha
      exact pyStripList_getLast?_false ha)
  rw [h2, List.reverse_reverse]

lemma pyStrip_idem (s : String) : pyStrip (pyStrip s) = pyStrip s := by
  unfold pyStrip
  exact congrArg String.mk (pyStripList_idem s.data)

lemma normalizeStr_idem (s : String) : normalizeStr (normalizeStr s) = normalizeStr s :=
  pyStrip_idem s

lemma normalizeStr_getCell (maybe_row : Option Row) (column : String) :
    normalizeStr (getCell maybe_row column) = getCell maybe_row column := by
  cases maybe_row with
  | none => rfl
  | some r => exact normalizeStr_idem _

/-! ## Lemmas: `choose_value` -/

/-- Closed-form case analysis of `choose_value` on already-trimmed inputs. -/
lemma choose_value_eq (s t : String) (p : List String)
    (hs : normalizeStr s = s) (ht : normalizeStr t = t) :
    choose_value s t p =
      if s = "" then (if t = "" then ("", "none", false) else (t, "target", false))
      else if t = "" then (s, "source", false)
      else if s = t then (s, "both", false)
      else if p.headD "" = "source" then (s, "source", true) else (t, "target", true) := by
  unfold choose_value
  rw [hs, ht]
  by_cases h1 : s = "" <;> by_cases h2 : t = "" <;> by_cases h3 : s = t <;>
    simp [h1, h2, h3]

/-- The conflict flag of `choose_value` is set exactly when both normalized
values are non-empty and differ. -/
lemma choose_value_conflict (s t : String) (p : List String) :
    (choose_value s t p).2.2 = true ↔
      (normalizeStr s ≠ "" ∧ normalizeStr t ≠ "" ∧ normalizeStr s ≠ normalizeStr t) := by
  have h := choose_value_eq (normalizeStr s) (normalizeStr t) p
    (normalizeStr_idem s) (normalizeStr_idem t)
  have hsame : choose_value s t p = choose_value (normalizeStr s) (normalizeStr t) p := by
    unfold choose_value
    rw [normalizeStr_idem, normalizeStr_idem]
  rw [hsame, h]
  by_cases h1 : normalizeStr s = "" <;> by_cases h2 : normalizeStr t = "" <;>
    by_cases h3 : normalizeStr s = normalizeStr t <;>
      simp [h1, h2, h3] <;> split_ifs <;> simp

/-! ## Lemmas: first-occurrence deduplication -/

lemma mem_dedupFirstAux {x : String} :
    ∀ (l acc : List String), x ∈ dedupFirstAux acc l ↔ x ∈ acc ∨ x ∈ l
  | [], acc => by simp [dedupFirstAux]
  | y :: ys, acc => by
    simp only [dedupFirstAux]
    by_cases hy : y ∈ acc
    · rw [if_pos hy, mem_dedupFirstAux ys acc]
      by_cases hxy : x = y
      · subst hxy
        simp [hy]
      · simp [hxy]
    · rw [if_neg hy, mem_dedupFirstAux ys (acc ++ [y])]
      simp [List.mem_append, or_assoc]

lemma nodup_dedupFirstAux :
    ∀ (l acc : List String), acc.Nodup → (dedupFirstAux acc l).Nodup
  | [], _, h => h
  | y :: ys, acc, h => by
    simp only [dedupFirstAux]
    by_cases hy : y ∈ acc
    · rw [if_pos hy]
      exact nodup_dedupFirstAux ys acc h
    · rw [if_neg hy]
      refine nodup_dedupFirstAux ys (acc ++ [y]) ?_
      simp only [List.nodup_append, List.nodup_cons, List.not_mem_nil, not_false_iff,
        List.nodup_nil, and_true, List.disjoint_singleton]
      exact ⟨h, by simpa using hy⟩

lemma head?_dedupFirstAux :
    ∀ (l acc : List String), acc ≠ [] → (dedupFirstAux acc l).head? = acc.head?
  | [], _, _ => rfl
  | y :: ys, acc, hne => by
    simp only [dedupFirstAux]
    by_cases hy : y ∈ acc
    · rw [if_pos hy]
      exact head?_dedupFirstAux ys acc hne
    · rw [if_neg hy, head?_dedupFirstAux ys (acc ++ [y]) (by simp), List.head?_append]
      cases acc with
      | nil => exact absurd rfl hne
      | cons a as => rfl

/-- The five association orders reachable over the token set
`{"source", "target"}`. -/
def PriorityShape (l : List String) : Prop :=
  l = [] ∨ l = ["source"] ∨ l = ["target"] ∨
    l = ["source", "target"] ∨ l = ["target", "source"]

lemma dedupFirstAux_shape :
    ∀ (l acc : List String), (∀ x ∈ l, x = "source" ∨ x = "target") →
      PriorityShape acc → PriorityShape (dedupFirstAux acc l)
  | [], _, _, hacc => hacc
  | y :: ys, acc, hl, hacc => by
    simp only [dedupFirstAux]
    have hrest : ∀ x ∈ ys, x = "source" ∨ x = "target" :=
      fun x hx => hl x (List.mem_cons_of_mem y hx)
    by_cases hy : y ∈ acc
    · rw [if_pos hy]
      exact dedupFirstAux_shape ys acc hrest hacc
    · rw [if_neg hy]
      refine dedupFirstAux_shape ys (acc ++ [y]) hrest ?_
      have hyv := hl y (List.mem_cons_self y ys)
      rcases hacc with rfl | rfl | rfl | rfl | rfl <;>
        rcases hyv with rfl | rfl <;> simp_all [PriorityShape]

/-- On acceptance, `validate_priority` returns one of the two full orders. -/
lemma validate_priority_ok_shape {p l : List String}
    (h : validate_priority p = Except.ok l) :
    l = ["source", "target"] ∨ l = ["target", "source"] := by
  unfold validate_priority at h
  by_cases hc : cleanedOf p = []
  · rw [if_pos hc] at h
    exact Or.inr (Except.ok.inj h).symm
  · rw [if_neg hc] at h
    by_cases hi : invalidOf p ≠ []
    · rw [if_pos hi] at h
      cases h
    · rw [if_neg hi] at h
      push_neg at hi
      have hval : ∀ x ∈ cleanedOf p, x = "source" ∨ x = "target" := by
        intro x hx
        have hfil := List.filter_eq_nil_iff.mp hi x hx
        have hfil2 : ¬x = "source" → x = "target" := by simpa using hfil
        exact or_iff_not_imp_left.mpr hfil2
      have h5 : PriorityShape (dedupFirstAux [] (cleanedOf p)) :=
        dedupFirstAux_shape (cleanedOf p) [] hval (Or.inl rfl)
      have h5b : PriorityShape (dedupFirstAux (dedupFirstAux [] (cleanedOf p))
          ["target", "source"]) := by
        refine dedupFirstAux_shape ["target", "source"] _ ?_ h5
        intro x hx
        simp only [List.mem_cons, List.not_mem_nil, or_false] at hx
        tauto
      have hl : l = dedupFirstAux (dedupFirstAux [] (cleanedOf p)) ["target", "source"] :=
        (Except.ok.inj h).symm
      have hsrc : "source" ∈ l := by
        rw [hl, mem_dedupFirstAux]
        simp
      have htgt : "target" ∈ l := by
        rw [hl, mem_dedupFirstAux]
        simp
      rw [hl] at hsrc htgt ⊢
      rcases h5b with h0 | h0 | h0 | h0 | h0 <;> rw [h0] at hsrc htgt ⊢ <;> simp_all

/-! ## Claim theorems: survivorship merger value resolution and priority -/

/-- C3: for trimmed cell values and a validated priority list, `choose_value`
resolves: equal non-empty values → that value, provenance `"both"`, no
conflict; differing non-empty values → the value of the side listed first in
the priority order, that side as provenance, conflict; exactly one non-empty
side → that value and side, no conflict; both empty → empty value, provenance
`"none"`, no conflict. -/
theorem claim_C3_choose_value_resolution (s t : String) (priority : List String)
    (hs : normalizeStr s = s) (ht : normalizeStr t = t)
    (hp : priority = ["source", "target"] ∨ priority = ["target", "source"]) :
    (s ≠ "" → t ≠ "" → s = t → choose_value s t priority = (s, "both", false)) ∧
    (s ≠ "" → t ≠ "" → s ≠ t →
      choose_value s t priority =
        if priority.headD "" = "source" then (s, "source", true) else (t, "target", true)) ∧
    (s ≠ "" → t = "" → choose_value s t priority = (s, "source", false)) ∧
    (s = "" → t ≠ "" → choose_value s t priority = (t, "target", false)) ∧
    (s = "" → t = "" → choose_value s t priority = ("", "none", false)) := by
  have he := choose_value_eq s t priority hs ht
  refine ⟨?_, ?_, ?_, ?_, ?_⟩
  · intro h1 h2 h3
    rw [he]
    simp [h1, h2, h3]
  · intro h1 h2 h3
    rw [he]
    simp [h1, h2, h3]
  · intro h1 h2
    rw [he]
    simp [h1, h2]
  · intro h1 h2
    rw [he]
    simp [h1, h2]
  · intro h1 h2
    subst h1
    subst h2
    rw [he]
    simp

/-- Witness for C3 at concrete inputs. -/
theorem claim_C3_witness :
    choose_value "70" "75" ["target", "source"] = ("75", "target", true) ∧
    choose_value "" "" ["target", "source"] = ("", "none", false) := by
  have h := claim_C3_choose_value_resolution "70" "75" ["target", "source"]
    (by decide) (by decide) (Or.inr rfl)
  refine ⟨?_, ?_⟩
  · have h2 := h.2.1 (by decide) (by decide) (by decide)
    simpa using h2
  · have h5 := (claim_C3_choose_value_resolution "" "" ["target", "source"]
      (by decide) (by decide) (Or.inr rfl)).2.2.2.2 rfl rfl
    exact h5

/-- C6: swapping the two priority tokens changes the result of `choose_value`
exactly on inputs where both sides are non-empty and differ (there the chosen
value and provenance flip to the other side); on all other inputs the result
triple is identical under either order. -/
theorem claim_C6_priority_swap (s t : String)
    (hs : normalizeStr s = s) (ht : normalizeStr t = t) :
    (s ≠ "" ∧ t ≠ "" ∧ s ≠ t →
      choose_value s t ["source", "target"] = (s, "source", true) ∧
      choose_value s t ["target", "source"] = (t, "target", true) ∧
      choose_value s t ["source", "target"] ≠ choose_value s t ["target", "source"]) ∧
    (¬(s ≠ "" ∧ t ≠ "" ∧ s ≠ t) →
      choose_value s t ["source", "target"] = choose_value s t ["target", "source"]) := by
  have h1 := choose_value_eq s t ["source", "target"] hs ht
  have h2 := choose_value_eq s t ["target", "source"] hs ht
  constructor
  · rintro ⟨hs1, ht1, hst⟩
    rw [h1, h2]
    simp [hs1, ht1, hst]
  · intro hne
    rw [h1, h2]
    by_cases e1 : s = "" <;> by_cases e2 : t = "" <;> simp [e1, e2]
    have hst : s = t := by
      by_contra hst
      exact hne ⟨e1, e2, hst⟩
    simp [hst]

/-- Witness for C6 at concrete inputs. -/
theorem claim_C6_witness :
    choose_value "a" "b" ["source", "target"] = ("a", "source", true) ∧
    choose_value "a" "b" ["target", "source"] = ("b", "target", true) ∧
    choose_value "a" "" ["source", "target"] = choose_value "a" "" ["target", "source"] := by
  have h := (claim_C6_priority_swap "a" "b" (by decide) (by decide)).1
    ⟨by decide, by decide, by decide⟩
  have h2 := (claim_C6_priority_swap "a" "" (by decide) (by decide)).2 (by decide)
  exact ⟨h.1, h.2.1, h2⟩

/-- C7: every non-empty priority input that `validate_priority` accepts yields
a list made of exactly the tokens `"source"` and `"target"`, each once, in
some order; deduplication keeps the first occurrence (the head of the cleaned
input, if any, stays at the head), and a missing token is appended. -/
theorem claim_C7_validate_priority_two_tokens (p l : List String) (hp : p ≠ [])
    (h : validate_priority p = Except.ok l) :
    (l = ["source", "target"] ∨ l = ["target", "source"]) ∧
    (∀ x, (cleanedOf p).head? = some x → l.head? = some x) := by
  refine ⟨validate_priority_ok_shape h, ?_⟩
  intro x hx
  have hc : cleanedOf p ≠ [] := by
    intro h0
    rw [h0] at hx
    cases hx
  unfold validate_priority at h
  rw [if_neg hc] at h
  by_cases hi : invalidOf p ≠ []
  · rw [if_pos hi] at h
    cases h
  · rw [if_neg hi] at h
    have hl : l = dedupFirstAux (dedupFirstAux [] (cleanedOf p)) ["target", "source"] :=
      (Except.ok.inj h).symm
    have hinner : (dedupFirstAux [] (cleanedOf p)).head? = some x := by
      cases hcl : cleanedOf p with
      | nil => exact absurd hcl hc
      | cons y ys =>
        rw [hcl] at hx
        simp only [List.head?_cons, Option.some.injEq] at hx
        subst hx
        have hstep : dedupFirstAux [] (y :: ys) = dedupFirstAux [y] ys := by
          simp [dedupFirstAux]
        rw [hstep, head?_dedupFirstAux ys [y] (by simp)]
        rfl
    have hne : dedupFirstAux [] (cleanedOf p) ≠ [] := by
      intro h0
      rw [h0] at hinner
      cases hinner
    rw [hl, head?_dedupFirstAux ["target", "source"] _ hne]
    exact hinner

/-- Witness for C7: a duplicated token is deduplicated and the missing one
appended. -/
theorem claim_C7_witness :
    ∃ l, validate_priority ["source", "source"] = Except.ok l ∧
      (l = ["source", "target"] ∨ l = ["target", "source"]) ∧ l.head? = some "source" := by
  have hv : validate_priority ["source", "source"] = Except.ok ["source", "target"] := by rfl
  have h := claim_C7_validate_priority_two_tokens ["source", "source"] ["source", "target"]
    (by simp) hv
  exact ⟨["source", "target"], hv, h.1, h.2 "source" rfl⟩

/-- C8: a cleaned priority token other than `"source"`/`"target"` makes
`validate_priority` fail with an error naming the offending token(s), and the
merge run returns that error whatever the input rows are (validation runs
before any row is read or merged). -/
theorem claim_C8_invalid_priority_fails (p : List String) (bad : String)
    (hbad : bad ∈ cleanedOf p) (hs : bad ≠ "source") (ht : bad ≠ "target") :
    bad ∈ invalidOf p ∧
    validate_priority p =
      Except.error ("Invalid priority option(s): " ++ ", ".intercalate (invalidOf p)) ∧
    ∀ source_rows target_rows key_column requested_columns,
      mergeRun p source_rows target_rows key_column requested_columns =
        Except.error ("Invalid priority option(s): " ++ ", ".intercalate (invalidOf p)) := by
  have hmem : bad ∈ invalidOf p := by
    unfold invalidOf
    refine List.mem_filter.mpr ⟨hbad, ?_⟩
    simp [hs, ht]
  have hcne : cleanedOf p ≠ [] := by
    intro h0
    rw [h0] at hbad
    cases hbad
  have hine : invalidOf p ≠ [] := by
    intro h0
    rw [h0] at hmem
    cases hmem
  have hval : validate_priority p =
      Except.error ("Invalid priority option(s): " ++ ", ".intercalate (invalidOf p)) := by
    unfold validate_priority
    rw [if_neg hcne, if_pos hine]
  refine ⟨hmem, hval, ?_⟩
  intro source_rows target_rows key_column requested_columns
  unfold mergeRun
  rw [hval]

/-- Witness for C8 at a concrete invalid token. -/
theorem claim_C8_witness :
    validate_priority ["both"] = Except.error "Invalid priority option(s): both" ∧
    mergeRun ["both"] [] [] "student_id" [] =
      Except.error "Invalid priority option(s): both" := by
  have h := claim_C8_invalid_priority_fails ["both"] "both" (by decide)
    (by decide) (by decide)
  have hinv : ", ".intercalate (invalidOf ["both"]) = "both" := by decide
  constructor
  · rw [h.2.1, hinv]
    rfl
  · rw [h.2.2 [] [] "student_id" [], hinv]
    rfl

/-- C10: an empty or all-blank priority list is not an error:
`validate_priority` silently returns the default `["target", "source"]`, and
the merge run proceeds exactly as with the default priority. -/
theorem claim_C10_blank_priority_defaults (p : List String)
    (h : ∀ x ∈ p, normalizeStr x = "") :
    validate_priority p = Except.ok ["target", "source"] ∧
    ∀ source_rows target_rows key_column requested_columns,
      mergeRun p source_rows target_rows key_column requested_columns =
        mergeRun ["target", "source"] source_rows target_rows key_column requested_columns := by
  have hc : cleanedOf p = [] := by
    unfold cleanedOf
    have hfil : p.filter (fun item => normalizeStr item != "") = [] := by
      refine List.filter_eq_nil_iff.mpr ?_
      intro a ha
      simp [h a ha]
    rw [hfil]
    rfl
  have hv : validate_priority p = Except.ok ["target", "source"] := by
    unfold validate_priority
    rw [hc]
    rfl
  refine ⟨hv, ?_⟩
  intro source_rows target_rows key_column requested_columns
  have hv2 : validate_priority ["target", "source"] = Except.ok ["target", "source"] := by rfl
  unfold mergeRun
  rw [hv, hv2]

/-- Witness for C10 at a whitespace-only priority list. -/
theorem claim_C10_witness :
    validate_priority [" "] = Except.ok ["target", "source"] ∧
    mergeRun [" "] [] [] "student_id" [] =
      mergeRun ["target", "source"] [] [] "student_id" [] := by
  have h := claim_C10_blank_priority_defaults [" "] (by decide)
  exact ⟨h.1, h.2 [] [] "student_id" []⟩

/-! ## Lemmas: merger main loop -/

/-- The conflict flag computed by the merger for one cell pair agrees with the
spec-side predicate "both sides had differing non-empty values". -/
lemma choose_value_conflict_cell (sr tr : Option Row) (pr : List String) (c : String) :
    (choose_value (getCell sr c) (getCell tr c) pr).2.2 = conflictCellB sr tr c := by
  have h := choose_value_conflict (getCell sr c) (getCell tr c) pr
  rw [normalizeStr_getCell, normalizeStr_getCell] at h
  unfold conflictCellB
  by_cases h1 : getCell sr c = "" <;> by_cases h2 : getCell tr c = "" <;>
    by_cases h3 : getCell sr c = getCell tr c <;>
      simp_all [bne_iff_ne]

lemma mergeColumnsLoop_conflicts (sr tr : Option Row) (pr : List String) (k : String) :
    ∀ cols, (mergeColumnsLoop sr tr pr k cols).2.2 =
      (cols.filter (fun c => conflictCellB sr tr c)).length
  | [] => rfl
  | c :: rest => by
    simp only [mergeColumnsLoop]
    have hc := choose_value_conflict_cell sr tr pr c
    have ih := mergeColumnsLoop_conflicts sr tr pr k rest
    by_cases hb : conflictCellB sr tr c
    · rw [List.filter_cons_of_pos hb]
      simp only [hc, hb, if_true]
      simp [ih]
    · rw [List.filter_cons_of_neg (by simpa using hb)]
      simp only [hc]
      rw [if_neg (by simpa using hb)]
      exact ih

lemma mergeLoop_keys (si ti : List (String × Row)) (cols pr : List String) :
    ∀ ks, ((mergeLoop si ti cols pr ks).1.map (fun r => r.key)) = ks
  | [] => rfl
  | k :: rest => by
    simp only [mergeLoop, processKey, List.map_cons]
    rw [mergeLoop_keys si ti cols pr rest]

lemma mergeLoop_conflicts (si ti : List (String × Row)) (cols pr : List String) :
    ∀ ks, (mergeLoop si ti cols pr ks).2.2.field_conflicts =
      (ks.map (fun k =>
        (cols.filter (fun c => conflictCellB (List.lookup k si) (List.lookup k ti) c)).length)).sum
  | [] => rfl
  | k :: rest => by
    simp only [mergeLoop, processKey, List.map_cons, List.sum_cons]
    rw [mergeLoop_conflicts si ti cols pr rest, mergeColumnsLoop_conflicts]

lemma nodup_allKeysOf (si ti : List (String × Row)) : (allKeysOf si ti).Nodup := by
  unfold allKeysOf dedupFirst
  exact (List.mergeSort_perm _ _).nodup_iff.mpr
    (nodup_dedupFirstAux _ [] List.nodup_nil)

lemma mem_allKeysOf (si ti : List (String × Row)) (k : String) :
    k ∈ allKeysOf si ti ↔
      k ∈ si.map (fun p => p.1) ∨ k ∈ ti.map (fun p => p.1) := by
  unfold allKeysOf dedupFirst
  rw [List.mem_mergeSort, mem_dedupFirstAux]
  simp

lemma sorted_allKeysOf (si ti : List (String × Row)) :
    List.Sorted (· ≤ ·) (allKeysOf si ti) := by
  unfold allKeysOf
  have h := @List.sorted_mergeSort String (fun a b : String => decide (a ≤ b))
    (fun a b c hab hbc =>
      decide_eq_true (le_trans (of_decide_eq_true hab) (of_decide_eq_true hbc)))
    (fun a b => by
      rcases le_total a b with h | h <;> simp [h])
    (dedupFirst (si.map (fun p => p.1) ++ ti.map (fun p => p.1)))
  exact h.imp (fun hab => of_decide_eq_true hab)

/-- C2: the merged output has exactly one row per distinct key present in
either side's index (its key column lists exactly the sorted key union, with
no duplicates), and the reported conflict count is the number of
(key, merge-column) pairs where both sides had differing non-empty values. -/
theorem claim_C2_merge_shape_and_conflicts (source_rows target_rows : List Row)
    (key_column : String) (requested_columns priority : List String) :
    ((mergeCore source_rows target_rows key_column requested_columns priority).merged_rows.map
        (fun r => r.key)).Nodup ∧
    (∀ k,
      k ∈ (mergeCore source_rows target_rows key_column requested_columns priority).merged_rows.map
          (fun r => r.key) ↔
        k ∈ (index_rows source_rows key_column).1.map (fun p => p.1) ∨
        k ∈ (index_rows target_rows key_column).1.map (fun p => p.1)) ∧
    List.Sorted (· ≤ ·)
      ((mergeCore source_rows target_rows key_column requested_columns priority).merged_rows.map
        (fun r => r.key)) ∧
    (mergeCore source_rows target_rows key_column requested_columns priority).counts.field_conflicts =
      ((allKeysOf (index_rows source_rows key_column).1 (index_rows target_rows key_column).1).map
        (fun k =>
          ((resolve_columns source_rows target_rows key_column requested_columns).filter
            (fun c =>
              conflictCellB (List.lookup k (index_rows source_rows key_column).1)
                (List.lookup k (index_rows target_rows key_column).1) c)).length)).sum := by
  have hkeys :
      (mergeCore source_rows target_rows key_column requested_columns priority).merged_rows.map
          (fun r => r.key) =
        allKeysOf (index_rows source_rows key_column).1 (index_rows target_rows key_column).1 := by
    unfold mergeCore
    exact mergeLoop_keys _ _ _ _ _
  have hconf :
      (mergeCore source_rows target_rows key_column requested_columns priority).counts.field_conflicts =
        ((allKeysOf (index_rows source_rows key_column).1 (index_rows target_rows key_column).1).map
          (fun k =>
            ((resolve_columns source_rows target_rows key_column requested_columns).filter
              (fun c =>
                conflictCellB (List.lookup k (index_rows source_rows key_column).1)
                  (List.lookup k (index_rows target_rows key_column).1) c)).length)).sum := by
    unfold mergeCore
    exact mergeLoop_conflicts _ _ _ _ _
  rw [hkeys]
  exact ⟨nodup_allKeysOf _ _, fun k => mem_allKeysOf _ _ k, sorted_allKeysOf _ _, hconf⟩

/-! ## Lemmas: association-list lookup -/

lemma lookup_cons_eq {α β : Type} [BEq α] [LawfulBEq α] [DecidableEq α] (k a : α) (b : β)
    (l : List (α × β)) :
    List.lookup k ((a, b) :: l) = if k = a then some b else List.lookup k l := by
  rw [List.lookup_cons]
  cases hba : k == a
  · have hne : k ≠ a := by
      intro he
      subst he
      simp at hba
    simp [hne]
  · have he : k = a := eq_of_beq hba
    simp [he]

lemma mem_of_lookup_eq_some {α β : Type} [BEq α] [LawfulBEq α] [DecidableEq α] {k : α} {b : β} :
    ∀ {l : List (α × β)}, List.lookup k l = some b → (k, b) ∈ l := by
  intro l
  induction l with
  | nil => intro h; cases h
  | cons p rest ih =>
    intro h
    rw [show p = (p.1, p.2) from rfl, lookup_cons_eq] at h
    by_cases hk : k = p.1
    · rw [if_pos hk] at h
      subst hk
      have hb : b = p.2 := (Option.some.inj h).symm
      subst hb
      exact List.mem_cons_self p rest
    · rw [if_neg hk] at h
      exact List.mem_cons_of_mem _ (ih h)

lemma lookup_append_cases {α β : Type} [BEq α] [LawfulBEq α] [DecidableEq α] (k : α) :
    ∀ (l1 l2 : List (α × β)),
      List.lookup k (l1 ++ l2) =
        match List.lookup k l1 with
        | some b => some b
        | none => List.lookup k l2
  | [], _ => rfl
  | p :: rest, l2 => by
    rw [List.cons_append, show p = (p.1, p.2) from rfl, lookup_cons_eq, lookup_cons_eq]
    by_cases hk : k = p.1
    · rw [if_pos hk, if_pos hk]
    · rw [if_neg hk, if_neg hk]
      exact lookup_append_cases k rest l2

/-! ## Lemmas: the fuzzy candidate scan -/

lemma scanCandidates_some (ratio : String → String → Rat)
    (sn sd : String) (consumed : List String) :
    ∀ (cands : List TargetCandidate) (best : Option TargetCandidate) (bs : Rat)
      (c : TargetCandidate),
      (scanCandidates ratio sn sd consumed cands best bs).1 = some c →
      best = some c ∨ (c ∈ cands ∧ c.key ∉ consumed)
  | [], best, bs, c => fun h => Or.inl h
  | x :: rest, best, bs, c => by
    intro h
    simp only [scanCandidates] at h
    by_cases hx : x.key ∈ consumed
    · rw [if_pos hx] at h
      rcases scanCandidates_some ratio sn sd consumed rest best bs c h with h1 | h1
      · exact Or.inl h1
      · exact Or.inr ⟨List.mem_cons_of_mem _ h1.1, h1.2⟩
    · rw [if_neg hx] at h
      by_cases hlt : bs < candScore ratio sn sd x
      · rw [if_pos hlt] at h
        rcases scanCandidates_some ratio sn sd consumed rest (some x) _ c h with h1 | h1
        · have hcx : c = x := (Option.some.inj h1).symm
          subst hcx
          exact Or.inr ⟨List.mem_cons_self _ _, hx⟩
        · exact Or.inr ⟨List.mem_cons_of_mem _ h1.1, h1.2⟩
      · rw [if_neg hlt] at h
        rcases scanCandidates_some ratio sn sd consumed rest best bs c h with h1 | h1
        · exact Or.inl h1
        · exact Or.inr ⟨List.mem_cons_of_mem _ h1.1, h1.2⟩

lemma scanCandidates_none (ratio : String → String → Rat)
    (sn sd : String) (consumed : List String) :
    ∀ (cands : List TargetCandidate) (best : Option TargetCandidate) (bs : Rat),
      (scanCandidates ratio sn sd consumed cands best bs).1 = none →
      best = none ∧ (scanCandidates ratio sn sd consumed cands best bs).2 = bs
  | [], best, bs => fun h => ⟨h, rfl⟩
  | x :: rest, best, bs => by
    intro h
    simp only [scanCandidates] at h ⊢
    by_cases hx : x.key ∈ consumed
    · rw [if_pos hx] at h ⊢
      exact scanCandidates_none ratio sn sd consumed rest best bs h
    · rw [if_neg hx] at h ⊢
      by_cases hlt : bs < candScore ratio sn sd x
      · rw [if_pos hlt] at h
        have h1 := scanCandidates_none ratio sn sd consumed rest (some x) _ h
        cases h1.1
      · rw [if_neg hlt] at h ⊢
        exact scanCandidates_none ratio sn sd consumed rest best bs h

lemma scanCandidates_mono (ratio : String → String → Rat)
    (sn sd : String) (consumed : List String) :
    ∀ (cands : List TargetCandidate) (best : Option TargetCandidate) (bs : Rat),
      bs ≤ (scanCandidates ratio sn sd consumed cands best bs).2
  | [], _, _ => le_refl _
  | x :: rest, best, bs => by
    simp only [scanCandidates]
    by_cases hx : x.key ∈ consumed
    · rw [if_pos hx]
      exact scanCandidates_mono ratio sn sd consumed rest best bs
    · rw [if_neg hx]
      by_cases hlt : bs < candScore ratio sn sd x
      · rw [if_pos hlt]
        exact le_of_lt (lt_of_lt_of_le hlt
          (scanCandidates_mono ratio sn sd consumed rest (some x) _))
      · rw [if_neg hlt]
        exact scanCandidates_mono ratio sn sd consumed rest best bs

lemma scanCandidates_ge (ratio : String → String → Rat)
    (sn sd : String) (consumed : List String) :
    ∀ (cands : List TargetCandidate) (best : Option TargetCandidate) (bs : Rat)
      (c : TargetCandidate), c ∈ cands → c.key ∉ consumed →
      candScore ratio sn sd c ≤ (scanCandidates ratio sn sd consumed cands best bs).2
  | [], _, _, c => fun hc _ => absurd hc (List.not_mem_nil c)
  | x :: rest, best, bs, c => by
    intro hc hcons
    simp only [scanCandidates]
    rcases List.mem_cons.mp hc with hcx | hcr
    · subst hcx
      rw [if_neg hcons]
      by_cases hlt : bs < candScore ratio sn sd c
      · rw [if_pos hlt]
        exact scanCandidates_mono ratio sn sd consumed rest (some c) _
      · rw [if_neg hlt]
        exact le_trans (le_of_not_lt hlt) (scanCandidates_mono ratio sn sd consumed rest best bs)
    · by_cases hx : x.key ∈ consumed
      · rw [if_pos hx]
        exact scanCandidates_ge ratio sn sd consumed rest best bs c hcr hcons
      · rw [if_neg hx]
        by_cases hlt : bs < candScore ratio sn sd x
        · rw [if_pos hlt]
          exact scanCandidates_ge ratio sn sd consumed rest (some x) _ c hcr hcons
        · rw [if_neg hlt]
          exact scanCandidates_ge ratio sn sd consumed rest best bs c hcr hcons

/-! ## Lemmas: `choose_fuzzy_candidate` and the matcher loop -/

/-- A fuzzy choice never returns a candidate whose key is already consumed,
and the candidate always comes from the pool. -/
lemma choose_fuzzy_candidate_unconsumed (ratio : String → String → Rat)
    (fmt3 fmt2 : Rat → String) (source_row : Row) (source_key : String)
    (candidates : List TargetCandidate) (consumed : List String)
    (name_columns : List String) (department_column : String) (threshold : Rat)
    (c : TargetCandidate)
    (h : (choose_fuzzy_candidate ratio fmt3 fmt2 source_row source_key candidates
        consumed name_columns department_column threshold).candidate = some c) :
    c ∈ candidates ∧ c.key ∉ consumed := by
  unfold choose_fuzzy_candidate at h
  by_cases hname : sourceNameOf source_row name_columns = ""
  · rw [if_pos hname] at h
    cases h
  · rw [if_neg hname] at h
    simp only at h
    rcases hscan : (scanCandidates ratio (sourceNameOf source_row name_columns)
        (sourceDeptOf source_row department_column) consumed candidates none 0).1 with _ | b
    · rw [hscan] at h
      cases h
    · rw [hscan] at h
      simp only at h
      by_cases hth : threshold ≤ (scanCandidates ratio (sourceNameOf source_row name_columns)
          (sourceDeptOf source_row department_column) consumed candidates none 0).2
      · rw [if_pos hth] at h
        have hcb : b = c := Option.some.inj h
        subst hcb
        rcases scanCandidates_some ratio _ _ consumed candidates none 0 b hscan with h1 | h1
        · cases h1
        · exact h1
      · rw [if_neg hth] at h
        cases h

/-- The fuzzy half of a matcher iteration either leaves the consumed set
unchanged and emits no target key, or emits a not-yet-consumed target key and
inserts exactly it. -/
lemma matcherFuzzy_consumed (ratio : String → String → Rat) (fmt3 fmt2 : Rat → String)
    (name_columns : List String) (department_column : String) (threshold : Rat)
    (pool : List TargetCandidate) (st : MatchState) (source_row : Row)
    (source_key source_name source_department : String) :
    ((matcherFuzzy ratio fmt3 fmt2 name_columns department_column threshold pool st
        source_row source_key source_name source_department).1.consumed = st.consumed ∧
      (matcherFuzzy ratio fmt3 fmt2 name_columns department_column threshold pool st
        source_row source_key source_name source_department).2.target_record_key = "") ∨
    ((matcherFuzzy ratio fmt3 fmt2 name_columns department_column threshold pool st
        source_row source_key source_name source_department).2.target_record_key ∉ st.consumed ∧
      (matcherFuzzy ratio fmt3 fmt2 name_columns department_column threshold pool st
          source_row source_key source_name source_department).1.consumed =
        st.consumed.insert ((matcherFuzzy ratio fmt3 fmt2 name_columns department_column
          threshold pool st source_row source_key source_name source_department).2.target_record_key)) := by
  simp only [matcherFuzzy]
  rcases hfc : (choose_fuzzy_candidate ratio fmt3 fmt2 source_row source_key pool
      st.consumed name_columns department_column threshold).candidate with _ | cand
  · exact Or.inl ⟨rfl, rfl⟩
  · refine Or.inr ⟨?_, rfl⟩
    exact (choose_fuzzy_candidate_unconsumed ratio fmt3 fmt2 source_row source_key pool
      st.consumed name_columns department_column threshold cand hfc).2

/-- One matcher iteration either leaves the consumed set unchanged and emits no
target key, or emits a not-yet-consumed target key and inserts exactly it. -/
lemma matcherStep_consumed (ratio : String → String → Rat) (fmt3 fmt2 : Rat → String)
    (key : String) (name_columns : List String) (department_column : String)
    (threshold : Rat) (tindex : List (String × TargetCandidate))
    (pool : List TargetCandidate) (st : MatchState) (source_row : Row)
    (hidx : ∀ p ∈ tindex, p.2.key = p.1) :
    ((matcherStep ratio fmt3 fmt2 key name_columns department_column threshold tindex
        pool st source_row).1.consumed = st.consumed ∧
      (matcherStep ratio fmt3 fmt2 key name_columns department_column threshold tindex
        pool st source_row).2.target_record_key = "") ∨
    ((matcherStep ratio fmt3 fmt2 key name_columns department_column threshold tindex
        pool st source_row).2.target_record_key ∉ st.consumed ∧
      (matcherStep ratio fmt3 fmt2 key name_columns department_column threshold tindex
          pool st source_row).1.consumed =
        st.consumed.insert ((matcherStep ratio fmt3 fmt2 key name_columns department_column
          threshold tindex pool st source_row).2.target_record_key)) := by
  simp only [matcherStep]
  rcases hlk : List.lookup (normalize (source_row.get key)) tindex with _ | cand
  · exact matcherFuzzy_consumed ratio fmt3 fmt2 name_columns department_column threshold
      pool st source_row _ _ _
  · simp only []
    by_cases hcond : normalize (source_row.get key) ≠ "" ∧
        normalize (source_row.get key) ∉ st.consumed
    · rw [if_pos hcond]
      have hck : cand.key = normalize (source_row.get key) :=
        hidx (normalize (source_row.get key), cand) (mem_of_lookup_eq_some hlk)
      refine Or.inr ⟨?_, rfl⟩
      simp only
      rw [hck]
      exact hcond.2
    · rw [if_neg hcond]
      exact matcherFuzzy_consumed ratio fmt3 fmt2 name_columns department_column threshold
        pool st source_row _ _ _

/-- Every index entry of `build_target_candidates` maps a key to a candidate
carrying exactly that key. -/
lemma buildTargetsGo_by_key_wf (kc : String) (ncols : List String) (dcol : String) :
    ∀ (rows : List Row) (acc : TargetIndex),
      (∀ p ∈ acc.by_key, p.2.key = p.1) →
      ∀ p ∈ (buildTargetsGo kc ncols dcol rows acc).by_key, p.2.key = p.1
  | [], _, hacc => hacc
  | row :: rest, acc, hacc => by
    simp only [buildTargetsGo]
    by_cases h1 : normalize (row.get kc) = ""
    · rw [if_pos h1]
      exact buildTargetsGo_by_key_wf kc ncols dcol rest _ hacc
    · rw [if_neg h1]
      by_cases h2 : acc.by_key.any (fun p => p.1 == normalize (row.get kc)) = true
      · rw [if_pos h2]
        exact buildTargetsGo_by_key_wf kc ncols dcol rest _ hacc
      · rw [if_neg h2]
        refine buildTargetsGo_by_key_wf kc ncols dcol rest _ ?_
        intro p hp
        rcases List.mem_append.mp hp with hp | hp
        · exact hacc p hp
        · simp only [List.mem_singleton] at hp
          subst hp
          rfl

lemma build_target_candidates_by_key_wf (rows : List Row) (kc : String)
    (ncols : List String) (dcol : String) :
    ∀ p ∈ (build_target_candidates rows kc ncols dcol).by_key, p.2.key = p.1 :=
  buildTargetsGo_by_key_wf kc ncols dcol rows ⟨[], [], 0, 0⟩ (by intro p hp; cases hp)

/-- Invariant of the matcher loop: the emitted non-empty target keys are
pairwise distinct and none of them was consumed before the loop started. -/
lemma matcherLoop_nodup (ratio : String → String → Rat) (fmt3 fmt2 : Rat → String)
    (key : String) (name_columns : List String) (department_column : String)
    (threshold : Rat) (tindex : List (String × TargetCandidate))
    (pool : List TargetCandidate) (hidx : ∀ p ∈ tindex, p.2.key = p.1) :
    ∀ (srows : List Row) (st : MatchState),
      (matchedTargets (matcherLoop ratio fmt3 fmt2 key name_columns department_column
        threshold tindex pool srows st).1).Nodup ∧
      ∀ k ∈ matchedTargets (matcherLoop ratio fmt3 fmt2 key name_columns
        department_column threshold tindex pool srows st).1, k ∉ st.consumed
  | [], st => ⟨List.nodup_nil, by intro k hk; cases hk⟩
  | row :: rest, st => by
    have hstep := matcherStep_consumed ratio fmt3 fmt2 key name_columns department_column
      threshold tindex pool st row hidx
    have ih := matcherLoop_nodup ratio fmt3 fmt2 key name_columns department_column
      threshold tindex pool hidx rest
      (matcherStep ratio fmt3 fmt2 key name_columns department_column threshold tindex
        pool st row).1
    simp only [matcherLoop, matchedTargets, List.map_cons, List.filter_cons]
    rcases hstep with ⟨hsame, htgt⟩ | ⟨hnotin, hins⟩
    · rw [htgt]
      simp only [bne_self_eq_false, if_neg, Bool.false_eq_true, not_false_iff]
      refine ⟨ih.1, ?_⟩
      intro k hk
      have := ih.2 k hk
      rw [hsame] at this
      exact this
    · by_cases hempty :
        (matcherStep ratio fmt3 fmt2 key name_columns department_column threshold tindex
          pool st row).2.target_record_key = ""
      · rw [hempty]
        simp only [bne_self_eq_false, if_neg, Bool.false_eq_true, not_false_iff]
        refine ⟨ih.1, ?_⟩
        intro k hk
        have hk2 := ih.2 k hk
        rw [hins] at hk2
        intro hk3
        exact hk2 (List.mem_insert_iff.mpr (Or.inr hk3))
      · rw [if_pos (by simpa using hempty)]
        constructor
        · refine List.nodup_cons.mpr ⟨?_, ih.1⟩
          intro hmem
          have hk2 := ih.2 _ hmem
          rw [hins] at hk2
          exact hk2 (List.mem_insert_iff.mpr (Or.inl rfl))
        · intro k hk
          rcases List.mem_cons.mp hk with hk | hk
          · subst hk
            exact hnotin
          · have hk2 := ih.2 k hk
            rw [hins] at hk2
            intro hk3
            exact hk2 (List.mem_insert_iff.mpr (Or.inr hk3))

/-- C1: in one matcher run no target key appears as the matched target of more
than one output row: exact-key matches are emitted only for not-yet-consumed
keys, the fuzzy scan skips consumed candidates, every match inserts the chosen
target key into the consumed set, and so the non-empty matched target keys of
the output are pairwise distinct (for any similarity function and formatter). -/
theorem claim_C1_target_key_matched_at_most_once (ratio : String → String → Rat)
    (fmt3 fmt2 : Rat → String) (source_rows target_rows : List Row) (key : String)
    (name_columns : List String) (department_column_arg : String) (threshold : Rat) :
    (matchedTargets (matcherRun ratio fmt3 fmt2 source_rows target_rows key
      name_columns department_column_arg threshold).1).Nodup := by
  unfold matcherRun
  exact (matcherLoop_nodup ratio fmt3 fmt2 key name_columns
    (normalizeStr department_column_arg) threshold _ _
    (build_target_candidates_by_key_wf target_rows key name_columns
      (normalizeStr department_column_arg)) source_rows ⟨[], ⟨0, 0, 0⟩⟩).1

/-- C4: whenever a source record's normalized key is non-empty, present in the
target index, and not yet consumed, the matcher iteration emits an `exact_key`
match with score string `"1.000"` for exactly that indexed candidate and marks
the key consumed — for every similarity function, threshold and candidate
pool, so the exact match takes precedence over any fuzzy outcome. -/
theorem claim_C4_exact_key_precedence (ratio : String → String → Rat)
    (fmt3 fmt2 : Rat → String) (key : String) (name_columns : List String)
    (department_column : String) (threshold : Rat)
    (tindex : List (String × TargetCandidate)) (pool : List TargetCandidate)
    (st : MatchState) (source_row : Row) (c : TargetCandidate)
    (hkey : normalize (source_row.get key) ≠ "")
    (hlk : List.lookup (normalize (source_row.get key)) tindex = some c)
    (hcons : normalize (source_row.get key) ∉ st.consumed) :
    (matcherStep ratio fmt3 fmt2 key name_columns department_column threshold tindex
      pool st source_row).2.match_type = "exact_key" ∧
    (matcherStep ratio fmt3 fmt2 key name_columns department_column threshold tindex
      pool st source_row).2.match_score = "1.000" ∧
    (matcherStep ratio fmt3 fmt2 key name_columns department_column threshold tindex
      pool st source_row).2.target_record_key = c.key ∧
    (matcherStep ratio fmt3 fmt2 key name_columns department_column threshold tindex
      pool st source_row).1.consumed = st.consumed.insert c.key ∧
    (matcherStep ratio fmt3 fmt2 key name_columns department_column threshold tindex
      pool st source_row).1.counts.exact_key = st.counts.exact_key + 1 := by
  simp only [matcherStep]
  rw [hlk]
  simp only []
  rw [if_pos ⟨hkey, hcons⟩]
  exact ⟨rfl, rfl, rfl, rfl, rfl⟩

/-- Witness for C4 at a concrete indexed key. -/
theorem claim_C4_witness :
    (matcherStep ratioEq fmtNull fmtNull "student_id" ["first_name"] "" 1
      [("7", ⟨"7", [("student_id", "7")], "", ""⟩)] [] ⟨[], ⟨0, 0, 0⟩⟩
      [("student_id", "7")]).2.match_type = "exact_key" ∧
    (matcherStep ratioEq fmtNull fmtNull "student_id" ["first_name"] "" 1
      [("7", ⟨"7", [("student_id", "7")], "", ""⟩)] [] ⟨[], ⟨0, 0, 0⟩⟩
      [("student_id", "7")]).2.match_score = "1.000" ∧
    (matcherStep ratioEq fmtNull fmtNull "student_id" ["first_name"] "" 1
      [("7", ⟨"7", [("student_id", "7")], "", ""⟩)] [] ⟨[], ⟨0, 0, 0⟩⟩
      [("student_id", "7")]).2.target_record_key = "7" := by
  have h := claim_C4_exact_key_precedence ratioEq fmtNull fmtNull "student_id"
    ["first_name"] "" 1 [("7", ⟨"7", [("student_id", "7")], "", ""⟩)] []
    ⟨[], ⟨0, 0, 0⟩⟩ [("student_id", "7")] ⟨"7", [("student_id", "7")], "", ""⟩
    (by decide) (by decide) (by decide)
  exact ⟨h.1, h.2.1, h.2.2.1⟩

/-- C5 (amended): with threshold `0.0`, a source record with a non-empty
derived NameKey receives a fuzzy candidate as soon as some unconsumed
candidate attains a strictly positive score; an unconsumed candidate alone is
not enough, because a candidate scoring exactly `0.0` never displaces the
initial empty best (`score > best_score` is strict). -/
theorem claim_C5_zero_threshold_amended (ratio : String → String → Rat)
    (fmt3 fmt2 : Rat → String) (source_row : Row) (source_key : String)
    (candidates : List TargetCandidate) (consumed : List String)
    (name_columns : List String) (department_column : String)
    (hname : sourceNameOf source_row name_columns ≠ "")
    (c : TargetCandidate) (hc : c ∈ candidates) (hcons : c.key ∉ consumed)
    (hpos : 0 < candScore ratio (sourceNameOf source_row name_columns)
      (sourceDeptOf source_row department_column) c) :
    (choose_fuzzy_candidate ratio fmt3 fmt2 source_row source_key candidates consumed
      name_columns department_column 0).candidate.isSome = true := by
  simp only [choose_fuzzy_candidate]
  rw [if_neg hname]
  have hge := scanCandidates_ge ratio (sourceNameOf source_row name_columns)
    (sourceDeptOf source_row department_column) consumed candidates none 0 c hc hcons
  have hpos2 : 0 < (scanCandidates ratio (sourceNameOf source_row name_columns)
      (sourceDeptOf source_row department_column) consumed candidates none 0).2 :=
    lt_of_lt_of_le hpos hge
  rcases hscan : (scanCandidates ratio (sourceNameOf source_row name_columns)
      (sourceDeptOf source_row department_column) consumed candidates none 0).1 with _ | b
  · have h0 := scanCandidates_none ratio (sourceNameOf source_row name_columns)
      (sourceDeptOf source_row department_column) consumed candidates none 0 hscan
    rw [h0.2] at hpos2
    exact absurd hpos2 (lt_irrefl 0)
  · simp only []
    rw [if_pos (le_of_lt hpos2)]
    rfl

/-- Witness for the amended C5: one unconsumed candidate with an identical
NameKey scores positively and is chosen at threshold 0. -/
theorem claim_C5_witness :
    (choose_fuzzy_candidate ratioEq fmtNull fmtNull
      [("first_name", "Ann"), ("last_name", "Lee")] ""
      [⟨"X1", [("first_name", "Ann"), ("last_name", "Lee")], "ann lee", ""⟩] []
      ["first_name", "last_name"] "department" 0).candidate.isSome = true := by
  refine claim_C5_zero_threshold_amended ratioEq fmtNull fmtNull
    [("first_name", "Ann"), ("last_name", "Lee")] ""
    [⟨"X1", [("first_name", "Ann"), ("last_name", "Lee")], "ann lee", ""⟩] []
    ["first_name", "last_name"] "department" (by decide)
    ⟨"X1", [("first_name", "Ann"), ("last_name", "Lee")], "ann lee", ""⟩
    (by decide) (by decide) (by decide)

/-- Counterexample to C5 as stated: one source record with non-empty NameKey
`"ann lee"`, one unconsumed target candidate (key `"X1"`, no name columns, so
its NameKey is empty), threshold `0.0` — the run emits `no_match`, not a fuzzy
match, because the candidate's score `0.0` is not strictly greater than the
initial best score `0.0`.  (The candidate's NameKey is empty, so `similarity`
returns `0.0` without consulting the similarity kernel at all.) -/
theorem claim_C5_counterexample :
    sourceNameOf [("student_id", ""), ("first_name", "Ann"), ("last_name", "Lee")]
        ["first_name", "last_name"] ≠ "" ∧
    ((matcherRun ratioEq fmtNull fmtNull
        [[("student_id", ""), ("first_name", "Ann"), ("last_name", "Lee")]]
        [[("student_id", "X1")]] "student_id" ["first_name", "last_name"] "department"
        0).2.2.all_candidates.map (fun c => c.key)) = ["X1"] ∧
    ((matcherRun ratioEq fmtNull fmtNull
        [[("student_id", ""), ("first_name", "Ann"), ("last_name", "Lee")]]
        [[("student_id", "X1")]] "student_id" ["first_name", "last_name"] "department"
        0).1.map (fun r => r.match_type)) = ["no_match"] := by decide

/-! ## Lemmas: target index construction (C9) -/

/-- The non-empty normalized keys of a row list, in input order. -/
def rowKeysOf (rows : List Row) (kc : String) : List String :=
  (rows.map (fun row => normalize (row.get kc))).filter (fun k => k != "")

lemma rowKeysOf_cons_empty {row : Row} {rest : List Row} {kc : String}
    (h : normalize (row.get kc) = "") :
    rowKeysOf (row :: rest) kc = rowKeysOf rest kc := by
  simp [rowKeysOf, List.filter_cons, h]

lemma rowKeysOf_cons_ne {row : Row} {rest : List Row} {kc : String}
    (h : normalize (row.get kc) ≠ "") :
    rowKeysOf (row :: rest) kc = normalize (row.get kc) :: rowKeysOf rest kc := by
  simp [rowKeysOf, List.filter_cons, h]

lemma anyKey_iff {β : Type} (k : String) (l : List (String × β)) :
    l.any (fun p => p.1 == k) = true ↔ k ∈ l.map (fun p => p.1) := by
  simp only [List.any_eq_true, List.mem_map, beq_iff_eq]

lemma lookup_eq_none_iff {β : Type} (k : String) :
    ∀ l : List (String × β), List.lookup k l = none ↔ k ∉ l.map (fun p => p.1)
  | [] => by simp
  | (a, b) :: rest => by
    rw [lookup_cons_eq]
    by_cases hk : k = a
    · simp [hk]
    · rw [if_neg hk]
      rw [lookup_eq_none_iff k rest]
      simp [hk]


/-- Generalized invariant of the `build_target_candidates` loop: the index
keys extend the accumulated keys by first-occurrence deduplication of the
non-empty row keys; duplicates are exactly counted; the candidate pool keys
track the index keys; and lookup returns the candidate built from the first
row carrying the key. -/
lemma buildTargetsGo_spec (kc : String) (ncols : List String) (dcol : String) :
    ∀ (rows : List Row) (acc : TargetIndex),
      (buildTargetsGo kc ncols dcol rows acc).by_key.map (fun p => p.1) =
        dedupFirstAux (acc.by_key.map (fun p => p.1)) (rowKeysOf rows kc) ∧
      (buildTargetsGo kc ncols dcol rows acc).duplicate_keys +
          (buildTargetsGo kc ncols dcol rows acc).by_key.length =
        acc.duplicate_keys + acc.by_key.length + (rowKeysOf rows kc).length ∧
      (acc.all_candidates.map (fun c => c.key) = acc.by_key.map (fun p => p.1) →
        (buildTargetsGo kc ncols dcol rows acc).all_candidates.map (fun c => c.key) =
          (buildTargetsGo kc ncols dcol rows acc).by_key.map (fun p => p.1)) ∧
      (∀ k, k ≠ "" →
        List.lookup k (buildTargetsGo kc ncols dcol rows acc).by_key =
          match List.lookup k acc.by_key with
          | some v => some v
          | none =>
            (rows.find? (fun row => normalize (row.get kc) == k)).map
              (fun row => mkCandidate row k ncols dcol))
  | [], acc => by
    refine ⟨rfl, by simp [buildTargetsGo, rowKeysOf, dedupFirstAux], fun h => h, ?_⟩
    intro k hk
    simp only [buildTargetsGo, List.find?_nil, Option.map_none]
    cases hl : List.lookup k acc.by_key <;> simp
  | row :: rest, acc => by
    by_cases h1 : normalize (row.get kc) = ""
    · have hgo : buildTargetsGo kc ncols dcol (row :: rest) acc =
          buildTargetsGo kc ncols dcol rest
            { acc with missing_key_rows := acc.missing_key_rows + 1 } := by
        simp only [buildTargetsGo]
        rw [if_pos h1]
      obtain ⟨ih1, ih2, ih3, ih4⟩ := buildTargetsGo_spec kc ncols dcol rest
        { acc with missing_key_rows := acc.missing_key_rows + 1 }
      have ih1' : (buildTargetsGo kc ncols dcol rest
            { acc with missing_key_rows := acc.missing_key_rows + 1 }).by_key.map
              (fun p => p.1) =
          dedupFirstAux (acc.by_key.map (fun p => p.1)) (rowKeysOf rest kc) := ih1
      have ih2' : (buildTargetsGo kc ncols dcol rest
            { acc with missing_key_rows := acc.missing_key_rows + 1 }).duplicate_keys +
            (buildTargetsGo kc ncols dcol rest
              { acc with missing_key_rows := acc.missing_key_rows + 1 }).by_key.length =
          acc.duplicate_keys + acc.by_key.length + (rowKeysOf rest kc).length := ih2
      have ih3' : acc.all_candidates.map (fun c => c.key) =
            acc.by_key.map (fun p => p.1) →
          (buildTargetsGo kc ncols dcol rest
              { acc with missing_key_rows := acc.missing_key_rows + 1 }).all_candidates.map
              (fun c => c.key) =
            (buildTargetsGo kc ncols dcol rest
              { acc with missing_key_rows := acc.missing_key_rows + 1 }).by_key.map
              (fun p => p.1) := ih3
      have ih4' : ∀ k, k ≠ "" →
          List.lookup k (buildTargetsGo kc ncols dcol rest
              { acc with missing_key_rows := acc.missing_key_rows + 1 }).by_key =
            match List.lookup k acc.by_key with
            | some v => some v
            | none =>
              (rest.find? (fun row => normalize (row.get kc) == k)).map
                (fun row => mkCandidate row k ncols dcol) := ih4
      rw [hgo, rowKeysOf_cons_empty h1]
      refine ⟨ih1', ih2', ih3', ?_⟩
      intro k hk
      rw [ih4' k hk]
      have hpred : (normalize (row.get kc) == k) = false := by
        rw [h1]
        exact beq_eq_false_iff_ne.mpr (Ne.symm hk)
      rw [List.find?_cons_of_neg _ (by simp [hpred])]
    · by_cases h2 : acc.by_key.any (fun p => p.1 == normalize (row.get kc)) = true
      · -- duplicate key: counted, index and pool unchanged
        have hgo : buildTargetsGo kc ncols dcol (row :: rest) acc =
            buildTargetsGo kc ncols dcol rest
              { acc with duplicate_keys := acc.duplicate_keys + 1 } := by
          simp only [buildTargetsGo]
          rw [if_neg h1, if_pos h2]
        obtain ⟨ih1, ih2, ih3, ih4⟩ := buildTargetsGo_spec kc ncols dcol rest
          { acc with duplicate_keys := acc.duplicate_keys + 1 }
        have ih1' : (buildTargetsGo kc ncols dcol rest
              { acc with duplicate_keys := acc.duplicate_keys + 1 }).by_key.map
                (fun p => p.1) =
            dedupFirstAux (acc.by_key.map (fun p => p.1)) (rowKeysOf rest kc) := ih1
        have ih2' : (buildTargetsGo kc ncols dcol rest
              { acc with duplicate_keys := acc.duplicate_keys + 1 }).duplicate_keys +
              (buildTargetsGo kc ncols dcol rest
                { acc with duplicate_keys := acc.duplicate_keys + 1 }).by_key.length =
            acc.duplicate_keys + 1 + acc.by_key.length + (rowKeysOf rest kc).length := ih2
        have ih3' : acc.all_candidates.map (fun c => c.key) =
              acc.by_key.map (fun p => p.1) →
            (buildTargetsGo kc ncols dcol rest
                { acc with duplicate_keys := acc.duplicate_keys + 1 }).all_candidates.map
                (fun c => c.key) =
              (buildTargetsGo kc ncols dcol rest
                { acc with duplicate_keys := acc.duplicate_keys + 1 }).by_key.map
                (fun p => p.1) := ih3
        have ih4' : ∀ k, k ≠ "" →
            List.lookup k (buildTargetsGo kc ncols dcol rest
                { acc with duplicate_keys := acc.duplicate_keys + 1 }).by_key =
              match List.lookup k acc.by_key with
              | some v => some v
              | none =>
                (rest.find? (fun row => normalize (row.get kc) == k)).map
                  (fun row => mkCandidate row k ncols dcol) := ih4
        have hmem : normalize (row.get kc) ∈ acc.by_key.map (fun p => p.1) :=
          (anyKey_iff _ _).mp h2
        rw [hgo, rowKeysOf_cons_ne h1]
        refine ⟨?_, ?_, ih3', ?_⟩
        · have hd : dedupFirstAux (acc.by_key.map (fun p => p.1))
              (normalize (row.get kc) :: rowKeysOf rest kc) =
              dedupFirstAux (acc.by_key.map (fun p => p.1)) (rowKeysOf rest kc) := by
            simp only [dedupFirstAux]
            rw [if_pos hmem]
          rw [hd]
          exact ih1'
        · simp only [List.length_cons]
          omega
        · intro k hk
          rw [ih4' k hk]
          cases hl : List.lookup k acc.by_key with
          | some v => rfl
          | none =>
            have hknot : k ∉ acc.by_key.map (fun p => p.1) :=
              (lookup_eq_none_iff k acc.by_key).mp hl
            have hkne : k ≠ normalize (row.get kc) := by
              intro he
              rw [he] at hknot
              exact hknot hmem
            have hpred : (normalize (row.get kc) == k) = false :=
              beq_eq_false_iff_ne.mpr (Ne.symm hkne)
            rw [List.find?_cons_of_neg _ (by simp [hpred])]
      · -- fresh key: appended to index and pool
        have hgo : buildTargetsGo kc ncols dcol (row :: rest) acc =
            buildTargetsGo kc ncols dcol rest
              { acc with
                by_key := acc.by_key ++
                  [(normalize (row.get kc),
                    mkCandidate row (normalize (row.get kc)) ncols dcol)],
                all_candidates := acc.all_candidates ++
                  [mkCandidate row (normalize (row.get kc)) ncols dcol] } := by
          simp only [buildTargetsGo]
          rw [if_neg h1, if_neg h2]
        obtain ⟨ih1, ih2, ih3, ih4⟩ := buildTargetsGo_spec kc ncols dcol rest
          { acc with
            by_key := acc.by_key ++
              [(normalize (row.get kc),
                mkCandidate row (normalize (row.get kc)) ncols dcol)],
            all_candidates := acc.all_candidates ++
              [mkCandidate row (normalize (row.get kc)) ncols dcol] }
        have ih1' : (buildTargetsGo kc ncols dcol rest
              { acc with
                by_key := acc.by_key ++
                  [(normalize (row.get kc),
                    mkCandidate row (normalize (row.get kc)) ncols dcol)],
                all_candidates := acc.all_candidates ++
                  [mkCandidate row (normalize (row.get kc)) ncols dcol] }).by_key.map
                (fun p => p.1) =
            dedupFirstAux ((acc.by_key ++
              [(normalize (row.get kc),
                mkCandidate row (normalize (row.get kc)) ncols dcol)]).map (fun p => p.1))
              (rowKeysOf rest kc) := ih1
        have hmapp : (acc.by_key ++
              [(normalize (row.get kc),
                mkCandidate row (normalize (row.get kc)) ncols dcol)]).map (fun p => p.1) =
            acc.by_key.map (fun p => p.1) ++ [normalize (row.get kc)] := by
          simp
        rw [hmapp] at ih1'
        have ih2' : (buildTargetsGo kc ncols dcol rest
              { acc with
                by_key := acc.by_key ++
                  [(normalize (row.get kc),
                    mkCandidate row (normalize (row.get kc)) ncols dcol)],
                all_candidates := acc.all_candidates ++
                  [mkCandidate row (normalize (row.get kc)) ncols dcol] }).duplicate_keys +
              (buildTargetsGo kc ncols dcol rest
                { acc with
                  by_key := acc.by_key ++
                    [(normalize (row.get kc),
                      mkCandidate row (normalize (row.get kc)) ncols dcol)],
                  all_candidates := acc.all_candidates ++
                    [mkCandidate row (normalize (row.get kc)) ncols dcol] }).by_key.length =
            acc.duplicate_keys + (acc.by_key ++
              [(normalize (row.get kc),
                mkCandidate row (normalize (row.get kc)) ncols dcol)]).length +
              (rowKeysOf rest kc).length := ih2
        simp only [List.length_append, List.length_cons, List.length_nil] at ih2'
        have ih3' : (acc.all_candidates ++
              [mkCandidate row (normalize (row.get kc)) ncols dcol]).map (fun c => c.key) =
              (acc.by_key ++
                [(normalize (row.get kc),
                  mkCandidate row (normalize (row.get kc)) ncols dcol)]).map (fun p => p.1) →
            (buildTargetsGo kc ncols dcol rest
                { acc with
                  by_key := acc.by_key ++
                    [(normalize (row.get kc),
                      mkCandidate row (normalize (row.get kc)) ncols dcol)],
                  all_candidates := acc.all_candidates ++
                    [mkCandidate row (normalize (row.get kc)) ncols dcol] }).all_candidates.map
                (fun c => c.key) =
              (buildTargetsGo kc ncols dcol rest
                { acc with
                  by_key := acc.by_key ++
                    [(normalize (row.get kc),
                      mkCandidate row (normalize (row.get kc)) ncols dcol)],
                  all_candidates := acc.all_candidates ++
                    [mkCandidate row (normalize (row.get kc)) ncols dcol] }).by_key.map
                (fun p => p.1) := ih3
        have ih4' : ∀ k, k ≠ "" →
            List.lookup k (buildTargetsGo kc ncols dcol rest
                { acc with
                  by_key := acc.by_key ++
                    [(normalize (row.get kc),
                      mkCandidate row (normalize (row.get kc)) ncols dcol)],
                  all_candidates := acc.all_candidates ++
                    [mkCandidate row (normalize (row.get kc)) ncols dcol] }).by_key =
              match List.lookup k (acc.by_key ++
                [(normalize (row.get kc),
                  mkCandidate row (normalize (row.get kc)) ncols dcol)]) with
              | some v => some v
              | none =>
                (rest.find? (fun row => normalize (row.get kc) == k)).map
                  (fun row => mkCandidate row k ncols dcol) := ih4
        have hnot : normalize (row.get kc) ∉ acc.by_key.map (fun p => p.1) := by
          intro hmem
          exact h2 ((anyKey_iff _ _).mpr hmem)
        rw [hgo, rowKeysOf_cons_ne h1]
        refine ⟨?_, ?_, ?_, ?_⟩
        · have hd : dedupFirstAux (acc.by_key.map (fun p => p.1))
              (normalize (row.get kc) :: rowKeysOf rest kc) =
              dedupFirstAux (acc.by_key.map (fun p => p.1) ++ [normalize (row.get kc)])
                (rowKeysOf rest kc) := by
            simp only [dedupFirstAux]
            rw [if_neg hnot]
          rw [hd]
          exact ih1'
        · simp only [List.length_cons]
          omega
        · intro hpool
          refine ih3' ?_
          simp only [List.map_append, List.map_cons, List.map_nil]
          rw [hpool]
          rfl
        · intro k hk
          rw [ih4' k hk]
          have hsplit := lookup_append_cases k acc.by_key
            [(normalize (row.get kc), mkCandidate row (normalize (row.get kc)) ncols dcol)]
          cases hl : List.lookup k acc.by_key with
          | some v =>
            have hsome : List.lookup k
                (acc.by_key ++ [(normalize (row.get kc),
                  mkCandidate row (normalize (row.get kc)) ncols dcol)]) = some v := by
              rw [hsplit, hl]
            rw [hsome]
          | none =>
            have hline : List.lookup k
                (acc.by_key ++ [(normalize (row.get kc),
                  mkCandidate row (normalize (row.get kc)) ncols dcol)]) =
                if k = normalize (row.get kc) then
                  some (mkCandidate row (normalize (row.get kc)) ncols dcol)
                else none := by
              rw [hsplit, hl]
              rw [lookup_cons_eq]
              rfl
            by_cases hkk : k = normalize (row.get kc)
            · rw [hline, if_pos hkk]
              have hpred : (normalize (row.get kc) == k) = true := by
                rw [hkk]
                exact beq_self_eq_true _
              rw [List.find?_cons_of_pos _ (by simpa using hpred)]
              rw [hkk]
              rfl
            · rw [hline, if_neg hkk]
              have hpred : (normalize (row.get kc) == k) = false :=
                beq_eq_false_iff_ne.mpr (Ne.symm hkk)
              rw [List.find?_cons_of_neg _ (by simp [hpred])]

/-- C9 (amended): when a target key occurs more than once, the first
occurrence wins (lookup returns the candidate built from the first row with
the key); later occurrences are excluded from both the key index and the
candidate pool, and are counted in the duplicate counter — reported in the
summary stats under the key `"target_duplicate_keys_ignored"`. -/
theorem claim_C9_duplicate_targets (rows : List Row) (kc : String)
    (ncols : List String) (dcol : String) :
    (build_target_candidates rows kc ncols dcol).by_key.map (fun p => p.1) =
      dedupFirst (rowKeysOf rows kc) ∧
    (build_target_candidates rows kc ncols dcol).all_candidates.map (fun c => c.key) =
      dedupFirst (rowKeysOf rows kc) ∧
    List.lookup "target_duplicate_keys_ignored"
        (build_target_candidates rows kc ncols dcol).stats =
      some (build_target_candidates rows kc ncols dcol).duplicate_keys ∧
    (build_target_candidates rows kc ncols dcol).duplicate_keys +
        (dedupFirst (rowKeysOf rows kc)).length = (rowKeysOf rows kc).length ∧
    (∀ k, k ≠ "" →
      List.lookup k (build_target_candidates rows kc ncols dcol).by_key =
        (rows.find? (fun row => normalize (row.get kc) == k)).map
          (fun row => mkCandidate row k ncols dcol)) := by
  obtain ⟨h1, h2, h3, h4⟩ := buildTargetsGo_spec kc ncols dcol rows ⟨[], [], 0, 0⟩
  have h1' : (build_target_candidates rows kc ncols dcol).by_key.map (fun p => p.1) =
      dedupFirst (rowKeysOf rows kc) := h1
  have h2' : (build_target_candidates rows kc ncols dcol).duplicate_keys +
      (build_target_candidates rows kc ncols dcol).by_key.length =
      0 + 0 + (rowKeysOf rows kc).length := h2
  have h3' : (build_target_candidates rows kc ncols dcol).all_candidates.map
      (fun c => c.key) =
      (build_target_candidates rows kc ncols dcol).by_key.map (fun p => p.1) := h3 rfl
  have h4' : ∀ k, k ≠ "" →
      List.lookup k (build_target_candidates rows kc ncols dcol).by_key =
        (rows.find? (fun row => normalize (row.get kc) == k)).map
          (fun row => mkCandidate row k ncols dcol) := h4
  have hlen : (dedupFirst (rowKeysOf rows kc)).length =
      (build_target_candidates rows kc ncols dcol).by_key.length := by
    rw [← h1']
    exact List.length_map _ _
  exact ⟨h1', h3'.trans h1', rfl, by omega, h4'⟩

/-- Counterexample to C9 as stated: with the key `"1"` twice among the target
rows the duplicate is counted once and excluded from the index and the pool,
but the matcher summary carries the counter under the key
`"target_duplicate_keys_ignored"`, not `"target_duplicates_ignored"` as the
claim (following the spec's scenario) names it. -/
theorem claim_C9_counterexample :
    List.lookup "target_duplicates_ignored"
      (build_target_candidates
        [[("student_id", "1"), ("first_name", "Ann")],
         [("student_id", "1"), ("first_name", "Bob")]]
        "student_id" ["first_name"] "department").stats = none ∧
    List.lookup "target_duplicate_keys_ignored"
      (build_target_candidates
        [[("student_id", "1"), ("first_name", "Ann")],
         [("student_id", "1"), ("first_name", "Bob")]]
        "student_id" ["first_name"] "department").stats = some 1 ∧
    (build_target_candidates
        [[("student_id", "1"), ("first_name", "Ann")],
         [("student_id", "1"), ("first_name", "Bob")]]
        "student_id" ["first_name"] "department").by_key.map (fun p => p.1) = ["1"] ∧
    (build_target_candidates
        [[("student_id", "1"), ("first_name", "Ann")],
         [("student_id", "1"), ("first_name", "Bob")]]
        "student_id" ["first_name"] "department").all_candidates.map
        (fun c => c.name_key) = ["ann"] := by decide
